import Mathlib

/-!
Verification of the Liquid EVM wallet signing bridge.

The definitions below are a shallow embedding of the wallet code in
`src/wallets/liquid-evm-base.ts` (class `LiquidEvmBaseWallet`): address
derivation with the bidirectional evm-address map, per-entry signer
eligibility (`processTxns` / `processEncodedTxns`), the chain guard
(`ensureAlgorandChain`), the batched signing orchestration
(`signTransactions`) and session reconciliation (`resumeWithAccounts`).

Modelling conventions:
- An Algorand transaction is observed by this code only through the
  sender address, so `Txn` carries exactly that.
- A binary msgpack blob is observed only through the two decode results
  the code computes from it - the probed signed flag (`isSignedTxn`) and
  the decoded inner transaction - so `EncodedTxn` carries exactly those.
- `signTransactions` receives the already flattened transaction sequence
  (the result of `flattenTxnGroup`, which lives in `src/utils`); all
  claims are stated relative to this normalized sequence.
- Opaque signed blobs returned by the external SDK are identified by a
  natural number.
- External effects (provider RPC, hooks, the batched SDK signature call)
  are parameters of the model, and the calls actually issued are
  recorded in an event trace.
-/

deriving instance DecidableEq for Except

namespace UseWallet

/-- An Algorand transaction as inspected by the wallet code: only
`txn.sender.toString()` is ever read. -/
structure Txn where
  sender : String
deriving DecidableEq, Repr

/-- A binary-encoded group entry, observed through
`algosdk.msgpackRawDecode` and `isSignedTxn`: `isSigned` is the probe
result, `txn` the decoded (inner) transaction. -/
structure EncodedTxn where
  txn : Txn
  isSigned : Bool
deriving DecidableEq, Repr

/-- Opaque signed transaction blob (a `Uint8Array` in the source). -/
abbrev Blob := Nat

/-- A wallet account record: `name`, `address` and the metadata fields
this code reads and writes (`evmAddress`, `connectorName`,
`connectorIcon`). -/
structure WalletAccount where
  name : String
  address : String
  evmAddress : Option String
  connectorName : Option String
  connectorIcon : Option String
deriving DecidableEq, Repr

/-- The `evmAddressMap : Map<string, string>` field
(algorandAddress to evmAddress). Only `get`, `set` and `clear` are used
by the code, so an association list with overwrite-on-set is
observationally equivalent. -/
abbrev AddrMap := List (String × String)

/-- `Map.set`: overwrite any existing binding for the key. -/
def mapSet (m : AddrMap) (k v : String) : AddrMap :=
  (k, v) :: m.filter (fun p => p.1 != k)

/-- `Map.get`: first binding for the key, if any. -/
def mapGet (m : AddrMap) (k : String) : Option String :=
  match m.find? (fun p => p.1 == k) with
  | some p => some p.2
  | none => none

/-- The index-filter check `!indexesToSign || indexesToSign.includes(index)`.
An absent argument (JS `undefined`) is `none`; an empty array is
`some []` and is a filter that matches nothing. -/
def isIndexMatch (indexesToSign : Option (List Nat)) (index : Nat) : Bool :=
  match indexesToSign with
  | none => true
  | some ixs => ixs.contains index

/-- `LiquidEvmBaseWallet.processTxns` (structured path): walk the group
with indexes, keep the entries whose index matches the filter and whose
sender is among the wallet addresses. -/
def processTxns (addresses : List String) (txnGroup : List Txn)
    (indexesToSign : Option (List Nat)) : List Txn :=
  txnGroup.enum.foldl
    (fun txnsToSign p =>
      if isIndexMatch indexesToSign p.1 && addresses.contains p.2.sender then
        txnsToSign ++ [p.2]
      else txnsToSign)
    []

/-- `LiquidEvmBaseWallet.processEncodedTxns` (binary path): same walk,
except an entry that decoded as an already-signed wrapper can never be
signed (`canSignTxn = !isSigned && this.addresses.includes(signer)`). -/
def processEncodedTxns (addresses : List String) (txnGroup : List EncodedTxn)
    (indexesToSign : Option (List Nat)) : List Txn :=
  txnGroup.enum.foldl
    (fun txnsToSign p =>
      if isIndexMatch indexesToSign p.1 &&
          (!p.2.isSigned && addresses.contains p.2.txn.sender) then
        txnsToSign ++ [p.2.txn]
      else txnsToSign)
    []

/-- Spec-side eligibility rule, written from the words of spec section 3:
eligible iff (a) no index filter is supplied or the index is in the
filter, and (b) the declared sender is among the wallet-owned addresses,
and (c) the entry is not already signed (always false for structured
input). Used to compare against the source-side processors. -/
def eligibleForSignature (ownedAddresses : List String)
    (indexFilter : Option (List Nat)) (index : Nat) (sender : String)
    (alreadySigned : Bool) : Bool :=
  (match indexFilter with
   | none => true
   | some f => f.contains index)
  && ownedAddresses.contains sender
  && !alreadySigned

/-- The input of `signTransactions` after `flattenTxnGroup`: either a
flat sequence of structured transactions or a flat sequence of
binary-encoded entries (mixed encodings are not supported by the code). -/
inductive TxnGroupInput where
  | structured (txns : List Txn)
  | encoded (txns : List EncodedTxn)
deriving DecidableEq, Repr

/-- `flatTxns` as computed at the top of `signTransactions`: the
structured sequence itself, or each encoded entry decoded to its inner
transaction. -/
def flatTxnsOf : TxnGroupInput → List Txn
  | .structured ts => ts
  | .encoded es => es.map (fun e => e.txn)

/-- The `txnsToSign` selection in `signTransactions`: `processTxns` on
the structured path, `processEncodedTxns` on the binary path. -/
def txnsToSignOf (addresses : List String) (input : TxnGroupInput)
    (indexesToSign : Option (List Nat)) : List Txn :=
  match input with
  | .structured ts => processTxns addresses ts indexesToSign
  | .encoded es => processEncodedTxns addresses es indexesToSign

/-- The wallet-instance state read by `signTransactions`:
`this.addresses` (the wallet-owned Algorand addresses), the in-memory
`evmAddressMap`, and `store.state.wallets[this.id].accounts` (the
persisted accounts, `none` when no wallet state is stored). -/
structure WalletSt where
  addresses : List String
  evmAddressMap : AddrMap
  persistedAccounts : Option (List WalletAccount)
deriving DecidableEq, Repr

/-- The map rebuild loop shared by `signTransactions` (fallback) and
`resumeWithAccounts`: for each persisted account with a
`metadata.evmAddress`, set `evmAddressMap[account.address] = evmAddress`. -/
def rebuildEvmAddressMap (m : AddrMap) (accounts : List WalletAccount) :
    AddrMap :=
  accounts.foldl
    (fun m account =>
      match account.evmAddress with
      | some addr => mapSet m account.address addr
      | none => m)
    m

/-- Resolution of the signing EVM address in `signTransactions`
(lines 268-282 of the source): direct `evmAddressMap` lookup, then - if
absent and a persisted wallet state exists - rebuild the map from
persisted account metadata and retry the lookup. -/
def resolveEvmAddress (st : WalletSt) (algorandAddress : String) :
    Option String :=
  match mapGet st.evmAddressMap algorandAddress with
  | some evmAddress => some evmAddress
  | none =>
    match st.persistedAccounts with
    | some accounts =>
        mapGet (rebuildEvmAddressMap st.evmAddressMap accounts)
          algorandAddress
    | none => none

/-- Externally observable steps taken by `signTransactions`, in order. -/
inductive Event where
  | beforeSign
  | ensureChain
  | externalSign (evmAddress : String)
  | afterSign (success : Bool) (errMsg : Option String)
deriving DecidableEq, Repr

/-- Outcomes of the external collaborators of one `signTransactions`
call: presence and result of the two UI hooks, the chain guard result
and the batched SDK signature call result. A hook or provider failure is
an `Except.error` carrying the error message. -/
structure SignEnv where
  hasBeforeSign : Bool
  beforeSignResult : Except String Unit
  ensureChainResult : Except String Unit
  signTxnResult : Except String (List Blob)
  hasAfterSign : Bool
  afterSignThrows : Bool
deriving DecidableEq, Repr

/-- Result of a `signTransactions` call: the returned array or the
thrown error message, together with the trace of external steps. -/
structure SignOutcome where
  res : Except String (List (Option Blob))
  trace : List Event
deriving Repr

/-- Error message of `new Error` at line 285 of the source. -/
def noEvmMsg (algorandAddress : String) : String :=
  "No EVM address found for Algorand address: " ++ algorandAddress

/-- The guarded `onAfterSign` invocation: the hook is called only when
present, and it is wrapped in try/catch with an empty catch block, so a
throwing hook behaves exactly like a returning one. -/
def runAfterSignSwallowed (env : SignEnv) (success : Bool)
    (errMsg : Option String) : List Event :=
  if env.hasAfterSign then
    match env.afterSignThrows with
    | true => [Event.afterSign success errMsg]
    | false => [Event.afterSign success errMsg]
  else []

/-- The catch block of `signTransactions`: best-effort
`onAfterSign(false, error.message)` (its own exception swallowed), then
rethrow the original error. -/
def catchWith (env : SignEnv) (msg : String) (trace : List Event) :
    SignOutcome :=
  { res := .error msg
    trace := trace ++ runAfterSignSwallowed env false (some msg) }

/-- `LiquidEvmBaseWallet.signTransactions` on the flattened input:
process the group, return all-null early when nothing is to be signed,
resolve the signing EVM address from the first selected transaction
(with the rebuild fallback), run the before-sign hook, the chain guard
and the single batched SDK signature call, then assemble the result
array - a signed blob at the positions where
`isIndexMatch && this.addresses.includes(signer)` holds, null
elsewhere. -/
def signTransactions (st : WalletSt) (input : TxnGroupInput)
    (indexesToSign : Option (List Nat)) (env : SignEnv) : SignOutcome :=
  let flatTxns := flatTxnsOf input
  match txnsToSignOf st.addresses input indexesToSign with
  | [] =>
    { res := .ok (flatTxns.map fun _ => none), trace := [] }
  | firstTxn :: _ =>
    match resolveEvmAddress st firstTxn.sender with
    | none => catchWith env (noEvmMsg firstTxn.sender) []
    | some evmAddress =>
      let tBefore : List Event :=
        if env.hasBeforeSign then [Event.beforeSign] else []
      match (if env.hasBeforeSign then env.beforeSignResult
             else Except.ok ()) with
      | .error e => catchWith env e tBefore
      | .ok _ =>
        match env.ensureChainResult with
        | .error e => catchWith env e (tBefore ++ [Event.ensureChain])
        | .ok _ =>
          let tSign := tBefore ++ [Event.ensureChain] ++
            [Event.externalSign evmAddress]
          match env.signTxnResult with
          | .error e => catchWith env e tSign
          | .ok signedBlobs =>
            { res := .ok (flatTxns.enum.map fun p =>
                if isIndexMatch indexesToSign p.1 &&
                    st.addresses.contains p.2.sender then
                  signedBlobs.get? p.1
                else none)
              trace := tSign ++ runAfterSignSwallowed env true none }

/-- Whether an event is the batched external SDK signature call. -/
def isExternalSign : Event → Bool
  | .externalSign _ => true
  | _ => false

/-- Provider RPC requests issued by `ensureAlgorandChain`. -/
inductive RpcCall where
  | ethChainId
  | switchEthereumChain (chainId : String)
  | addEthereumChain
deriving DecidableEq, Repr

/-- Provider behaviour seen by one `ensureAlgorandChain` call: the
current chain id answered to `eth_chainId`, the outcome of a
`wallet_switchEthereumChain` request (failure carries the numeric
`switchError.code`), and the outcome of a `wallet_addEthereumChain`
request. -/
structure ChainEnv where
  currentChainId : String
  switchResult : Except Int Unit
  addResult : Except Int Unit
deriving DecidableEq, Repr

/-- The known chain-unknown error codes checked by the source:
4902 (chain not added, MetaMask / EIP-3085), -32600 (chain id not
supported, Rainbow and others), -32603 (internal JSON-RPC error used by
some wallets for unknown chains). -/
def chainUnknownCodes : List Int := [4902, -32600, -32603]

/-- `LiquidEvmBaseWallet.ensureAlgorandChain`: read the current chain id
and return if it already equals the target (case-insensitively);
otherwise request a chain switch, and on a failure whose code is in
`chainUnknownCodes` request adding the chain; any other switch failure
is rethrown. `target` stands for the external constant
`ALGORAND_CHAIN_ID_HEX`. Returns the outcome and the list of RPC
requests issued, in order. -/
def ensureAlgorandChain (target : String) (env : ChainEnv) :
    Except Int Unit × List RpcCall :=
  if env.currentChainId.toLower == target.toLower then
    (.ok (), [RpcCall.ethChainId])
  else
    match env.switchResult with
    | .ok _ =>
      (.ok (), [RpcCall.ethChainId, RpcCall.switchEthereumChain target])
    | .error code =>
      if chainUnknownCodes.contains code then
        (env.addResult,
         [RpcCall.ethChainId, RpcCall.switchEthereumChain target,
          RpcCall.addEthereumChain])
      else
        (.error code,
         [RpcCall.ethChainId, RpcCall.switchEthereumChain target])

/-- Whether an RPC request is a switch-network request. -/
def isSwitchCall : RpcCall → Bool
  | .switchEthereumChain _ => true
  | _ => false

/-- Whether an RPC request is an add-network request. -/
def isAddCall : RpcCall → Bool
  | .addEthereumChain => true
  | _ => false

/-- Optional connector display metadata passed to account derivation. -/
structure ConnectorInfo where
  name : Option String
  icon : Option String
deriving DecidableEq, Repr

/-- `LiquidEvmBaseWallet.deriveAlgorandAccounts`: for each EVM address
in order, obtain the derived Algorand address from the SDK
(`getAddress`, a deterministic external derivation), record the pair in
`evmAddressMap`, and build the account record whose name combines the
wallet name with the EVM address and whose metadata carries the EVM
address plus any connector name/icon. Returns the accounts in input
order together with the updated map. -/
def deriveAlgorandAccounts (walletName : String)
    (getAddress : String → String) (m : AddrMap)
    (evmAddresses : List String) (connectorInfo : Option ConnectorInfo) :
    List WalletAccount × AddrMap :=
  match evmAddresses with
  | [] => ([], m)
  | evmAddress :: rest =>
    let algorandAddress := getAddress evmAddress
    let m1 := mapSet m algorandAddress evmAddress
    let account : WalletAccount :=
      { name := walletName ++ " " ++ evmAddress
        address := algorandAddress
        evmAddress := some evmAddress
        connectorName := connectorInfo.bind (fun ci => ci.name)
        connectorIcon := connectorInfo.bind (fun ci => ci.icon) }
    let restResult :=
      deriveAlgorandAccounts walletName getAddress m1 rest connectorInfo
    (account :: restResult.1, restResult.2)

/-- Result of `resumeWithAccounts`: the accounts handed to
`setAccountsFn` (`none` when it was not called), and the final
`evmAddressMap`. -/
structure ResumeOutcome where
  persisted : Option (List WalletAccount)
  finalMap : AddrMap
deriving DecidableEq, Repr

/-- `LiquidEvmBaseWallet.resumeWithAccounts`: return immediately when no
wallet state is persisted; otherwise rebuild `evmAddressMap` from the
persisted account metadata, re-derive the accounts from the connector
EVM addresses, compare against the persisted accounts (the comparison
only drives a log warning), and always hand the freshly derived
accounts to `setAccountsFn` so that fresh connector metadata propagates
even when addresses are unchanged. -/
def resumeWithAccounts (walletName : String)
    (getAddress : String → String) (m : AddrMap)
    (persistedAccounts : Option (List WalletAccount))
    (evmAddresses : List String) (connectorInfo : Option ConnectorInfo) :
    ResumeOutcome :=
  match persistedAccounts with
  | none => { persisted := none, finalMap := m }
  | some accounts =>
    let m1 := rebuildEvmAddressMap m accounts
    let derived :=
      deriveAlgorandAccounts walletName getAddress m1 evmAddresses
        connectorInfo
    { persisted := some derived.1, finalMap := derived.2 }

section Lemmas

/-- forEach with conditional push equals filter plus map. -/
theorem foldl_push_eq {α β : Type} (l : List α) (p : α → Bool) (f : α → β)
    (acc : List β) :
    l.foldl (fun acc x => if p x then acc ++ [f x] else acc) acc
      = acc ++ (l.filter p).map f := by
  induction l generalizing acc with
  | nil => simp
  | cons a l ih =>
    by_cases h : p a = true
    · simp [List.filter_cons, h, ih]
    · simp only [Bool.not_eq_true] at h
      simp [List.filter_cons, h, ih]

theorem processTxns_eq_filter (addresses : List String) (g : List Txn)
    (ixs : Option (List Nat)) :
    processTxns addresses g ixs
      = ((g.enum.filter fun p =>
          isIndexMatch ixs p.1 && addresses.contains p.2.sender).map
            fun p => p.2) := by
  unfold processTxns
  simpa using foldl_push_eq g.enum
    (fun p => isIndexMatch ixs p.1 && addresses.contains p.2.sender)
    (fun p => p.2) []

theorem processEncodedTxns_eq_filter (addresses : List String)
    (g : List EncodedTxn) (ixs : Option (List Nat)) :
    processEncodedTxns addresses g ixs
      = ((g.enum.filter fun p =>
          isIndexMatch ixs p.1 &&
            (!p.2.isSigned && addresses.contains p.2.txn.sender)).map
            fun p => p.2.txn) := by
  unfold processEncodedTxns
  simpa using foldl_push_eq g.enum
    (fun p => isIndexMatch ixs p.1 &&
      (!p.2.isSigned && addresses.contains p.2.txn.sender))
    (fun p => p.2.txn) []

theorem mapGet_mapSet_self (m : AddrMap) (k v : String) :
    mapGet (mapSet m k v) k = some v := by
  simp [mapGet, mapSet, List.find?]

theorem mapSet_idem (m : AddrMap) (k v : String) :
    mapSet (mapSet m k v) k v = mapSet m k v := by
  simp [mapSet, List.filter_filter]

theorem enumFrom_get? {α : Type} (l : List α) (n i : Nat) :
    (List.enumFrom n l).get? i = (l.get? i).map (fun a => (n + i, a)) := by
  induction l generalizing n i with
  | nil => simp
  | cons a l ih =>
    cases i with
    | zero => simp
    | succ i =>
      simp only [List.enumFrom, List.get?_cons_succ]
      rw [ih]
      have harith : n + 1 + i = n + (i + 1) := by omega
      rw [harith]

theorem enum_get? {α : Type} (l : List α) (i : Nat) :
    l.enum.get? i = (l.get? i).map (fun a => (i, a)) := by
  rw [List.enum, enumFrom_get?]
  simp

end Lemmas

/-- C3: an entry of a normalized transaction group is selected for
signing by the source processors exactly when it is eligible per the
spec rule - (a) no index filter is supplied or the index is in the
filter, (b) the declared sender is among the wallet-owned addresses,
and (c) for binary-encoded input the entry did not decode as an
already-signed wrapper (for structured input no entry is already
signed). -/
theorem process_eligibility_spec (addresses : List String)
    (ixs : Option (List Nat)) :
    (∀ g : List EncodedTxn,
      processEncodedTxns addresses g ixs
        = ((g.enum.filter fun p =>
            eligibleForSignature addresses ixs p.1 p.2.txn.sender
              p.2.isSigned).map fun p => p.2.txn))
    ∧ (∀ g : List Txn,
      processTxns addresses g ixs
        = ((g.enum.filter fun p =>
            eligibleForSignature addresses ixs p.1 p.2.sender false).map
              fun p => p.2)) := by
  have hbool : ∀ a b s : Bool, (a && (!s && b)) = (a && b && !s) := by
    decide
  constructor
  · intro g
    rw [processEncodedTxns_eq_filter]
    have hpred : (fun p : Nat × EncodedTxn =>
        isIndexMatch ixs p.1 &&
          (!p.2.isSigned && addresses.contains p.2.txn.sender))
        = (fun p : Nat × EncodedTxn =>
            eligibleForSignature addresses ixs p.1 p.2.txn.sender
              p.2.isSigned) := by
      funext p
      unfold eligibleForSignature isIndexMatch
      rw [hbool]
    rw [hpred]
  · intro g
    rw [processTxns_eq_filter]
    have hpred : (fun p : Nat × Txn =>
        isIndexMatch ixs p.1 && addresses.contains p.2.sender)
        = (fun p : Nat × Txn =>
            eligibleForSignature addresses ixs p.1 p.2.sender false) := by
      funext p
      unfold eligibleForSignature isIndexMatch
      simp
    rw [hpred]

/-- C6: after deriving a single source address, reverse lookup of the
derived account target address through the evm-address map returns that
source address; and deriving the same source address a second time
yields the same account and overwrites the same map entry, leaving the
map unchanged (idempotent derivation). -/
theorem deriveAlgorandAccounts_roundtrip_idem (walletName : String)
    (getAddress : String → String) (m : AddrMap) (s : String)
    (ci : Option ConnectorInfo) :
    mapGet (deriveAlgorandAccounts walletName getAddress m [s] ci).2
        (((deriveAlgorandAccounts walletName getAddress m [s] ci).1.headD
          ⟨"", "", none, none, none⟩).address)
      = some s
    ∧ deriveAlgorandAccounts walletName getAddress
        (deriveAlgorandAccounts walletName getAddress m [s] ci).2 [s] ci
      = deriveAlgorandAccounts walletName getAddress m [s] ci := by
  constructor
  · simp [deriveAlgorandAccounts, mapGet_mapSet_self]
  · simp [deriveAlgorandAccounts, mapSet_idem]

/-- Helper for C7: the accounts built by `deriveAlgorandAccounts` carry
exactly the input EVM addresses as their metadata source addresses, in
input order. -/
theorem deriveAlgorandAccounts_map_evmAddress (walletName : String)
    (getAddress : String → String) (m : AddrMap)
    (evmAddresses : List String) (ci : Option ConnectorInfo) :
    ((deriveAlgorandAccounts walletName getAddress m evmAddresses ci).1.map
        fun a => a.evmAddress)
      = evmAddresses.map some := by
  induction evmAddresses generalizing m with
  | nil => simp [deriveAlgorandAccounts]
  | cons a rest ih => simp [deriveAlgorandAccounts, ih]

/-- C7: connecting with a non-empty sequence of source addresses yields
one account per input address, in input order, and each account records
the corresponding input source address in its metadata
(`metadata.evmAddress`). -/
theorem deriveAlgorandAccounts_order_metadata (walletName : String)
    (getAddress : String → String) (m : AddrMap)
    (evmAddresses : List String) (ci : Option ConnectorInfo)
    (hne : evmAddresses ≠ []) :
    (deriveAlgorandAccounts walletName getAddress m evmAddresses ci).1.length
      = evmAddresses.length
    ∧ ((deriveAlgorandAccounts walletName getAddress m evmAddresses
          ci).1.map fun a => a.evmAddress)
      = evmAddresses.map some := by
  have h := deriveAlgorandAccounts_map_evmAddress walletName getAddress m
    evmAddresses ci
  refine ⟨?_, h⟩
  have hlen := congrArg List.length h
  simpa using hlen

/-- Witness for C7 at the source addresses of end-to-end scenario A. -/
theorem deriveAlgorandAccounts_order_metadata_witness :
    (deriveAlgorandAccounts "W" (fun s => s ++ "!") [] ["0xA", "0xB"]
        none).1.length = 2
    ∧ ((deriveAlgorandAccounts "W" (fun s => s ++ "!") [] ["0xA", "0xB"]
        none).1.map fun a => a.evmAddress)
      = [some "0xA", some "0xB"] :=
  deriveAlgorandAccounts_order_metadata "W" (fun s => s ++ "!") []
    ["0xA", "0xB"] none (by decide)

/-- C2: on a transaction group with zero eligible entries,
`signTransactions` returns an all-null array whose length equals the
normalized input length, and the batched external signature capability
is never invoked. -/
theorem signTransactions_no_eligible (st : WalletSt)
    (input : TxnGroupInput) (ixs : Option (List Nat)) (env : SignEnv)
    (h : txnsToSignOf st.addresses input ixs = []) :
    (signTransactions st input ixs env).res
      = .ok (List.replicate (flatTxnsOf input).length none)
    ∧ (signTransactions st input ixs env).trace.countP isExternalSign
      = 0 := by
  constructor
  · simp [signTransactions, h, List.map_const']
  · simp [signTransactions, h]

/-- Witness for C2: a group whose only entry is owned by another party. -/
theorem signTransactions_no_eligible_witness :
    (signTransactions ⟨[], [], none⟩ (.structured [⟨"A"⟩]) none
        ⟨false, .ok (), .ok (), .ok [], false, false⟩).res
      = .ok (List.replicate 1 none) :=
  (signTransactions_no_eligible ⟨[], [], none⟩ (.structured [⟨"A"⟩]) none
    ⟨false, .ok (), .ok (), .ok [], false, false⟩ (by decide)).1

/-- C10: an empty index filter (an empty array, as opposed to an absent
argument) selects no indexes: both processors classify every entry
ineligible, `signTransactions` returns an all-null array of the
normalized input length without any external step, and - as the last
two conjuncts show on a concrete owned single-entry group - this is not
equivalent to omitting the filter. -/
theorem signTransactions_empty_index_filter :
    (∀ (addresses : List String) (g : List Txn),
      processTxns addresses g (some []) = [])
    ∧ (∀ (addresses : List String) (g : List EncodedTxn),
      processEncodedTxns addresses g (some []) = [])
    ∧ (∀ (st : WalletSt) (input : TxnGroupInput) (env : SignEnv),
      (signTransactions st input (some []) env).res
        = .ok ((flatTxnsOf input).map fun _ => none)
      ∧ (signTransactions st input (some []) env).trace = [])
    ∧ (signTransactions ⟨["A"], [("A", "E")], none⟩
        (.structured [⟨"A"⟩]) (some [])
        ⟨false, .ok (), .ok (), .ok [10], false, false⟩).res
      = .ok [none]
    ∧ (signTransactions ⟨["A"], [("A", "E")], none⟩
        (.structured [⟨"A"⟩]) none
        ⟨false, .ok (), .ok (), .ok [10], false, false⟩).res
      = .ok [some 10] := by
  have hp : ∀ (addresses : List String) (g : List Txn),
      processTxns addresses g (some []) = [] := by
    intro addresses g
    rw [processTxns_eq_filter]
    simp [isIndexMatch]
  have he : ∀ (addresses : List String) (g : List EncodedTxn),
      processEncodedTxns addresses g (some []) = [] := by
    intro addresses g
    rw [processEncodedTxns_eq_filter]
    simp [isIndexMatch]
  refine ⟨hp, he, ?_, by decide, by decide⟩
  intro st input env
  have h : txnsToSignOf st.addresses input (some []) = [] := by
    cases input <;> simp [txnsToSignOf, hp, he]
  constructor <;> simp [signTransactions, h]

/-- C5: when the provider current network id already equals the target
id, the chain guard issues no switch and no add request and returns;
otherwise it issues exactly one switch request, issues a follow-up add
request exactly when the switch failed with a code in the known
chain-unknown set, and rethrows a switch failure whose code is outside
that set. -/
theorem ensureAlgorandChain_protocol (target : String) (env : ChainEnv) :
    (env.currentChainId.toLower = target.toLower →
      (ensureAlgorandChain target env).2.countP isSwitchCall = 0
      ∧ (ensureAlgorandChain target env).2.countP isAddCall = 0
      ∧ (ensureAlgorandChain target env).1 = .ok ())
    ∧ (env.currentChainId.toLower ≠ target.toLower →
      (ensureAlgorandChain target env).2.countP isSwitchCall = 1
      ∧ ((ensureAlgorandChain target env).2.countP isAddCall = 1
          ↔ ∃ code, env.switchResult = .error code
              ∧ code ∈ chainUnknownCodes)
      ∧ (∀ code, env.switchResult = .error code →
          code ∉ chainUnknownCodes →
          (ensureAlgorandChain target env).1 = .error code)) := by
  constructor
  · intro h
    refine ⟨?_, ?_, ?_⟩ <;>
      simp [ensureAlgorandChain, h, List.countP_cons, isSwitchCall,
        isAddCall]
  · intro h
    have hne : (env.currentChainId.toLower == target.toLower) = false := by
      simp [h]
    cases hsw : env.switchResult with
    | ok u =>
      refine ⟨?_, ?_, ?_⟩
      · simp [ensureAlgorandChain, hne, hsw, List.countP_cons,
          isSwitchCall]
      · simp [ensureAlgorandChain, hne, hsw, List.countP_cons,
          isSwitchCall, isAddCall]
      · intro code hcode
        simp [hsw] at hcode
    | error code =>
      by_cases hc : chainUnknownCodes.contains code = true
      · have hmem : code ∈ chainUnknownCodes := by
          simpa using hc
        refine ⟨?_, ?_, ?_⟩
        · simp [ensureAlgorandChain, hne, hsw, hc, hmem,
            List.countP_cons, isSwitchCall]
        · simp only [ensureAlgorandChain, hne, hsw, hc]
          constructor
          · intro _
            exact ⟨code, rfl, hmem⟩
          · intro _
            simp [List.countP_cons, isAddCall]
        · intro code2 hcode2 hnotmem
          exfalso
          have : code2 = code := by
            simpa [hsw] using hcode2.symm
          exact hnotmem (this ▸ hmem)
      · have hnotmem : code ∉ chainUnknownCodes := by
          simpa using hc
        refine ⟨?_, ?_, ?_⟩
        · simp [ensureAlgorandChain, hne, hsw, hc, hnotmem,
            List.countP_cons, isSwitchCall]
        · simp only [ensureAlgorandChain, hne, hsw, hc]
          constructor
          · intro habs
            simp [List.countP_cons, isAddCall] at habs
          · rintro ⟨code2, hcode2, hmem2⟩
            have : code2 = code := by
              simpa [hsw] using hcode2.symm
            exact absurd (this ▸ hmem2) hnotmem
        · intro code2 hcode2 hnotmem2
          have : code2 = code := by
            simpa [hsw] using hcode2.symm
          subst this
          simp [ensureAlgorandChain, hne, hsw, hc, hnotmem]

/-- Witness for C5: the provider already reports the target chain, so
no switch and no add request is issued. -/
theorem ensureAlgorandChain_protocol_witness :
    (ensureAlgorandChain "0x1040"
        ⟨"0x1040", Except.error 1000, Except.ok ()⟩).2.countP isSwitchCall
      = 0
    ∧ (ensureAlgorandChain "0x1040"
        ⟨"0x1040", Except.error 1000, Except.ok ()⟩).2.countP isAddCall
      = 0 := by
  have h := (ensureAlgorandChain_protocol "0x1040"
    ⟨"0x1040", Except.error 1000, Except.ok ()⟩).1 rfl
  exact ⟨h.1, h.2.1⟩

/-- C4: with at least one eligible entry, the signing source address is
resolved from the declared sender of the first eligible entry - a
direct map hit is used as is; on a miss the map is rebuilt from the
persisted account metadata and the lookup retried; if resolution still
fails, `signTransactions` throws the fatal no-source-address error; and
when resolution succeeds, the batched external signature call is issued
for exactly the resolved EVM address. -/
theorem signTransactions_source_resolution (st : WalletSt)
    (input : TxnGroupInput) (ixs : Option (List Nat)) (env : SignEnv)
    (firstTxn : Txn) (rest : List Txn)
    (h : txnsToSignOf st.addresses input ixs = firstTxn :: rest) :
    (∀ e, mapGet st.evmAddressMap firstTxn.sender = some e →
      resolveEvmAddress st firstTxn.sender = some e)
    ∧ (mapGet st.evmAddressMap firstTxn.sender = none →
      ∀ accounts, st.persistedAccounts = some accounts →
        resolveEvmAddress st firstTxn.sender
          = mapGet (rebuildEvmAddressMap st.evmAddressMap accounts)
              firstTxn.sender)
    ∧ (resolveEvmAddress st firstTxn.sender = none →
      (signTransactions st input ixs env).res
        = .error (noEvmMsg firstTxn.sender))
    ∧ (∀ e, resolveEvmAddress st firstTxn.sender = some e →
      ∀ a, Event.externalSign a ∈ (signTransactions st input ixs env).trace →
        a = e) := by
  refine ⟨?_, ?_, ?_, ?_⟩
  · intro e he
    simp [resolveEvmAddress, he]
  · intro hnone accounts haccts
    simp [resolveEvmAddress, hnone, haccts]
  · intro hnone
    simp [signTransactions, h, hnone, catchWith]
  · intro e he a hmem
    rcases env with ⟨hb, br, cr, sr, ha, athr⟩
    cases hb <;> cases br <;> cases cr <;> cases sr <;> cases ha <;>
      cases athr <;>
      simp [signTransactions, h, he, catchWith, runAfterSignSwallowed]
        at hmem <;>
      simp [hmem]

/-- Witness for C4: a direct map hit resolving the first eligible
sender. -/
theorem signTransactions_source_resolution_witness :
    resolveEvmAddress ⟨["A"], [("A", "E")], none⟩ "A" = some "E" :=
  (signTransactions_source_resolution ⟨["A"], [("A", "E")], none⟩
    (.structured [⟨"A"⟩]) none ⟨false, .ok (), .ok (), .ok [10], false,
      false⟩ ⟨"A"⟩ [] (by decide)).1 "E" (by decide)

/-- Helper for C9: the returned or rethrown value of `signTransactions`
does not depend on whether the after-sign hook throws, because the hook
invocation is wrapped in try/catch with an empty catch block. -/
theorem signTransactions_res_ignores_afterSignThrows (st : WalletSt)
    (input : TxnGroupInput) (ixs : Option (List Nat)) (env : SignEnv)
    (b1 b2 : Bool) :
    (signTransactions st input ixs
        { env with afterSignThrows := b1 }).res
      = (signTransactions st input ixs
          { env with afterSignThrows := b2 }).res := by
  rcases env with ⟨hb, br, cr, sr, ha, athr⟩
  cases h1 : txnsToSignOf st.addresses input ixs with
  | nil => simp [signTransactions, h1]
  | cons firstTxn rest =>
    cases h2 : resolveEvmAddress st firstTxn.sender with
    | none => simp [signTransactions, h1, h2, catchWith]
    | some e =>
      cases hb <;> cases br <;> cases cr <;> cases sr <;>
        simp [signTransactions, h1, h2, catchWith]

/-- C9: when `signTransactions` fails before the external signature
call completes, the after-sign hook (when present) is invoked with
success false and the error message, an exception thrown by that hook
is swallowed (it cannot change the returned value), the original error
is rethrown unchanged - it is exactly the error of the failing step -
and no result array is returned. -/
theorem signTransactions_failure_path (st : WalletSt)
    (input : TxnGroupInput) (ixs : Option (List Nat)) (env : SignEnv)
    (msg : String)
    (hfail : (signTransactions st input ixs env).res = .error msg)
    (hhook : env.hasAfterSign = true) :
    Event.afterSign false (some msg) ∈ (signTransactions st input ixs env).trace
    ∧ (signTransactions st input ixs
        { env with afterSignThrows := true }).res
      = (signTransactions st input ixs
          { env with afterSignThrows := false }).res
    ∧ ((∃ a, msg = noEvmMsg a)
        ∨ env.beforeSignResult = .error msg
        ∨ env.ensureChainResult = .error msg
        ∨ env.signTxnResult = .error msg) := by
  refine ⟨?_, signTransactions_res_ignores_afterSignThrows st input ixs
    env true false, ?_⟩ <;>
  · rcases env with ⟨hb, br, cr, sr, ha, athr⟩
    simp only at hhook
    subst hhook
    cases h1 : txnsToSignOf st.addresses input ixs with
    | nil => simp [signTransactions, h1] at hfail
    | cons firstTxn rest =>
      cases h2 : resolveEvmAddress st firstTxn.sender with
      | none =>
        cases athr <;>
          simp [signTransactions, h1, h2, catchWith,
            runAfterSignSwallowed] at hfail ⊢ <;>
          simp [hfail.symm]
      | some e =>
        cases hb <;> cases br <;> cases cr <;> cases sr <;> cases athr <;>
          simp [signTransactions, h1, h2, catchWith,
            runAfterSignSwallowed] at hfail ⊢ <;>
          simp [hfail.symm]

/-- Witness for C9: the chain guard fails, the present after-sign hook
sees the failure and the error message. -/
theorem signTransactions_failure_path_witness :
    Event.afterSign false (some "boom")
      ∈ (signTransactions ⟨["A"], [("A", "E")], none⟩
          (.structured [⟨"A"⟩]) none
          ⟨false, .ok (), .error "boom", .ok [10], true, false⟩).trace :=
  (signTransactions_failure_path ⟨["A"], [("A", "E")], none⟩
    (.structured [⟨"A"⟩]) none
    ⟨false, .ok (), .error "boom", .ok [10], true, false⟩ "boom"
    (by decide) rfl).1

/-- C1 (amended): when `signTransactions` returns a result array, its
length equals the normalized input length; every index that fails the
index filter or whose sender is not wallet-owned is null; and - when at
least one entry was selected for signing - every index that passes the
filter with a wallet-owned sender holds a non-null blob. For binary
input this last set includes entries that decoded as already signed:
the already-signed exclusion governs only the selection of what to
sign, not the assembled result. -/
theorem signTransactions_result_shape (st : WalletSt)
    (input : TxnGroupInput) (ixs : Option (List Nat)) (env : SignEnv)
    (r : List (Option Blob))
    (hres : (signTransactions st input ixs env).res = .ok r)
    (hlen : ∀ blobs, env.signTxnResult = .ok blobs →
      blobs.length = (flatTxnsOf input).length) :
    r.length = (flatTxnsOf input).length
    ∧ (∀ i txn, (flatTxnsOf input).get? i = some txn →
        (isIndexMatch ixs i && st.addresses.contains txn.sender) = false →
        r.get? i = some none)
    ∧ (txnsToSignOf st.addresses input ixs ≠ [] →
        ∀ i txn, (flatTxnsOf input).get? i = some txn →
          (isIndexMatch ixs i && st.addresses.contains txn.sender) = true →
          ∃ b, r.get? i = some (some b)) := by
  cases h1 : txnsToSignOf st.addresses input ixs with
  | nil =>
    have hr : r = (flatTxnsOf input).map fun _ => none := by
      simp only [signTransactions, h1, Except.ok.injEq] at hres
      exact hres.symm
    subst hr
    refine ⟨by simp, ?_, ?_⟩
    · intro i txn hget hcond
      rw [List.get?_map, hget]
      rfl
    · intro habs
      exact absurd rfl habs
  | cons firstTxn rest =>
    cases h2 : resolveEvmAddress st firstTxn.sender with
    | none => simp [signTransactions, h1, h2, catchWith] at hres
    | some e =>
      cases h3 : (if env.hasBeforeSign then env.beforeSignResult
          else Except.ok ()) with
      | error e3 => simp [signTransactions, h1, h2, h3, catchWith] at hres
      | ok u3 =>
        cases h4 : env.ensureChainResult with
        | error e4 =>
          simp [signTransactions, h1, h2, h3, h4, catchWith] at hres
        | ok u4 =>
          cases h5 : env.signTxnResult with
          | error e5 =>
            simp [signTransactions, h1, h2, h3, h4, h5, catchWith] at hres
          | ok blobs =>
            have hblen := hlen blobs h5
            have hr : r = (flatTxnsOf input).enum.map fun p =>
                if isIndexMatch ixs p.1 &&
                    st.addresses.contains p.2.sender then
                  blobs.get? p.1
                else none := by
              simp only [signTransactions, h1, h2, h3, h4, h5,
                Except.ok.injEq] at hres
              exact hres.symm
            subst hr
            refine ⟨by simp, ?_, ?_⟩
            · intro i txn hget hcond
              rw [List.get?_map, enum_get?, hget]
              simp only [Option.map_some']
              rw [if_neg (by rw [hcond]; simp)]
            · intro _ i txn hget hcond
              rw [List.get?_map, enum_get?, hget]
              simp only [Option.map_some']
              rw [if_pos hcond]
              have hi : i < blobs.length := by
                rw [hblen]
                by_contra hge
                rw [List.get?_eq_none.mpr (by omega)] at hget
                cases hget
              cases hbg : blobs.get? i with
              | none =>
                have := List.get?_eq_none.mp hbg
                omega
              | some b =>
                exact ⟨b, rfl⟩

/-- Witness for C1 (amended): scenario B - three entries, entries 0 and
2 owned by this wallet, entry 1 owned by another party, no filter. -/
theorem signTransactions_result_shape_witness :
    (signTransactions ⟨["A"], [("A", "E")], none⟩
        (.structured [⟨"A"⟩, ⟨"B"⟩, ⟨"A"⟩]) none
        ⟨false, .ok (), .ok (), .ok [10, 11, 12], false, false⟩).res
      = .ok [some 10, none, some 12]
    ∧ [some 10, none, some 12].length
      = (flatTxnsOf (.structured [⟨"A"⟩, ⟨"B"⟩, ⟨"A"⟩])).length :=
  ⟨by decide,
   (signTransactions_result_shape ⟨["A"], [("A", "E")], none⟩
     (.structured [⟨"A"⟩, ⟨"B"⟩, ⟨"A"⟩]) none
     ⟨false, .ok (), .ok (), .ok [10, 11, 12], false, false⟩
     [some 10, none, some 12] (by decide)
     (by intro blobs hb; simp at hb; subst hb; rfl)).1⟩

/-- Counterexample for C1 as stated: in a binary-encoded group whose
second entry decodes as already signed, is declared by a wallet-owned
sender and passes the (absent) index filter, that entry is classified
ineligible (clause (c) of the eligibility rule), yet the returned array
holds a non-null blob at its position instead of null. -/
theorem signTransactions_signed_entry_cex :
    eligibleForSignature ["A"] none 1 "A" true = false
    ∧ (signTransactions ⟨["A"], [("A", "E")], none⟩
        (.encoded [⟨⟨"A"⟩, false⟩, ⟨⟨"A"⟩, true⟩]) none
        ⟨false, .ok (), .ok (), .ok [10, 11], false, false⟩).res
      = .ok [some 10, some 11]
    ∧ ¬ (∀ r, (signTransactions ⟨["A"], [("A", "E")], none⟩
          (.encoded [⟨⟨"A"⟩, false⟩, ⟨⟨"A"⟩, true⟩]) none
          ⟨false, .ok (), .ok (), .ok [10, 11], false, false⟩).res
            = .ok r →
        r.get? 1 = some none) := by
  refine ⟨by decide, by decide, ?_⟩
  intro hclaim
  have h := hclaim [some 10, some 11] (by decide)
  simp at h

/-- C8: on session resume with a persisted wallet state whose account
address set equals the freshly derived address set while connector
display metadata changed, the reconciler still hands the freshly
derived accounts to the persistence callback (metadata refresh) instead
of leaving persisted state untouched. -/
theorem resumeWithAccounts_always_persists (walletName : String)
    (getAddress : String → String) (m : AddrMap)
    (accounts : List WalletAccount) (evmAddresses : List String)
    (ci : Option ConnectorInfo)
    (hAddr : ((deriveAlgorandAccounts walletName getAddress
        (rebuildEvmAddressMap m accounts) evmAddresses ci).1.map
          fun a => a.address).toFinset
      = (accounts.map fun a => a.address).toFinset)
    (hMeta : ((deriveAlgorandAccounts walletName getAddress
        (rebuildEvmAddressMap m accounts) evmAddresses ci).1.map
          fun a => a.connectorName)
      ≠ accounts.map fun a => a.connectorName) :
    (resumeWithAccounts walletName getAddress m (some accounts)
        evmAddresses ci).persisted
      = some (deriveAlgorandAccounts walletName getAddress
          (rebuildEvmAddressMap m accounts) evmAddresses ci).1 := by
  simp [resumeWithAccounts]

/-- Witness for C8: one persisted account, same derived address, but
the connector display name changed between sessions. -/
theorem resumeWithAccounts_always_persists_witness :
    (resumeWithAccounts "W" (fun _ => "AlgoA") []
        (some [⟨"W 0xA", "AlgoA", some "0xA", some "Old", none⟩])
        ["0xA"] (some ⟨some "New", none⟩)).persisted
      = some [⟨"W 0xA", "AlgoA", some "0xA", some "New", none⟩] :=
  resumeWithAccounts_always_persists "W" (fun _ => "AlgoA") []
    [⟨"W 0xA", "AlgoA", some "0xA", some "Old", none⟩] ["0xA"]
    (some ⟨some "New", none⟩) (by decide) (by decide)

end UseWallet
